import Mathlib

/-!
Verification of the asynchronous operation-orchestration core of the
GenericDataImporterBackend repository: a shallow embedding of the
operations store (`src/operations/operations.store.ts`), the operations
manager (`operations.manager.ts`), the extraction worker
(`src/workers/extraction.worker.ts`), the sampler and the extraction
orchestrator (`sampler.service.ts`, `extractor.service.ts`) and the
result mapper (`src/mapping/mapper.service.ts`), together with theorems
settling the specification claims about them.

Conventions of the embedding:
* JavaScript `Date` timestamps become `Nat` milliseconds.
* JavaScript objects used as string-keyed records become association
  lists `List (String × α)` in insertion order; writing to a record is
  `setAssoc` (replace in place if the key exists, else append), which is
  JS property-assignment semantics.
* Numbers that can be fractional (confidence scores) become `ℚ`.
* Methods that can `throw` return an `Except` paired with the resulting
  store state (an exception does not roll mutations back; in the
  translated methods no mutation precedes a throw, matching the source).
* The request-payload fields of an Operation that no modelled code path
  reads (`fileContent`, `context`) are omitted from the record.
-/

set_option linter.unusedVariables false

/-- `OperationStatus` from `shared/types.ts`. -/
inductive OperationStatus where
  | pending
  | processing
  | completed
  | failed
  | cancelled
deriving DecidableEq, Repr

/-- `OperationPhase` from `shared/types.ts`. -/
inductive OperationPhase where
  | parsing
  | discovery
  | extraction
  | mapping
deriving DecidableEq, Repr

/-- `OperationProgress` from `shared/types.ts`. -/
structure OperationProgress where
  phase : OperationPhase
  currentStep : String
  rowsProcessed : Nat
  totalRows : Nat
  percentComplete : Nat
deriving DecidableEq, Repr

/-- A `Partial<OperationProgress>` argument: each field is optional;
`none` models a key absent from the partial object. -/
structure ProgressPatch where
  phase : Option OperationPhase := none
  currentStep : Option String := none
  rowsProcessed : Option Nat := none
  totalRows : Option Nat := none
  percentComplete : Option Nat := none
deriving DecidableEq, Repr

/-- JS object spread `{...cur, ...patch}` for a full record `cur` and a
partial record `patch`: a key present in `patch` overrides `cur`. -/
def applyPatch (cur : OperationProgress) (patch : ProgressPatch) : OperationProgress where
  phase := patch.phase.getD cur.phase
  currentStep := patch.currentStep.getD cur.currentStep
  rowsProcessed := patch.rowsProcessed.getD cur.rowsProcessed
  totalRows := patch.totalRows.getD cur.totalRows
  percentComplete := patch.percentComplete.getD cur.percentComplete

/-- The zeroed default progress used by `OperationsManager.updateProgress`
when the operation has no progress yet. -/
def defaultProgress : OperationProgress where
  phase := .parsing
  currentStep := ""
  rowsProcessed := 0
  totalRows := 0
  percentComplete := 0

/-- `OperationError` from `shared/types.ts` (the `details` payload is
environment metadata and is not modelled). -/
structure OperationError where
  code : String
  message : String
  phase : Option OperationPhase := none
deriving DecidableEq, Repr

/-- `DirectMapping` from `shared/types.ts` (discovery pass, pass 1). -/
structure DirectMapping where
  sourceColumn : String
  confidence : ℚ
deriving DecidableEq, Repr

/-- `ParsedDiscoveryResult`: record fields become insertion-ordered
association lists (`directMappings` keyed by target field,
`compoundColumns` keyed by source column). -/
structure ParsedDiscoveryResult where
  directMappings : List (String × DirectMapping)
  compoundColumns : List (String × List String)
  unmappedFields : List String
deriving DecidableEq, Repr

/-- `ParsedFieldExtraction` from `prompts/compound.prompt.ts`. -/
structure ParsedFieldExtraction where
  value : Option String
  confidence : ℚ
deriving DecidableEq, Repr

/-- `ParsedRowExtraction` from `prompts/compound.prompt.ts`; `fields` is
the LLM's record of target-field extractions in insertion order. -/
structure ParsedRowExtraction where
  rowIndex : Nat
  sourceColumn : String
  fields : List (String × ParsedFieldExtraction)
deriving DecidableEq, Repr

/-- `DirectExtraction` from `shared/types.ts`. -/
structure DirectExtraction where
  value : String
  targetField : String
  confidence : ℚ
deriving DecidableEq, Repr

/-- `CompoundExtractionItem` from `shared/types.ts`; `extractedValue` is
`string | null`. -/
structure CompoundExtractionItem where
  targetField : String
  extractedValue : Option String
  confidence : ℚ
deriving DecidableEq, Repr

/-- `CompoundExtraction` from `shared/types.ts`. -/
structure CompoundExtraction where
  sourceValue : String
  extractions : List CompoundExtractionItem
deriving DecidableEq, Repr

/-- `ExtractedRowData` from `shared/types.ts`: the three string-keyed
records become association lists. -/
structure ExtractedRowData where
  direct : List (String × DirectExtraction)
  compound : List (String × CompoundExtraction)
  unmapped : List (String × String)
deriving DecidableEq, Repr

/-- `ExtractionSummary` from `shared/types.ts`. -/
structure ExtractionSummary where
  directMappings : Nat
  compoundExtractions : Nat
  unmappedColumns : List String
  unmappedFields : List String
  llmCalls : Nat
  processingTimeMs : Nat
  averageConfidence : ℚ
deriving DecidableEq, Repr

/-- `ExtractionMetadata` from `shared/types.ts`. -/
structure ExtractionMetadata where
  sourceFile : String
  sourceSheet : Option String
  rowsProcessed : Nat
  extractionSummary : ExtractionSummary
deriving DecidableEq, Repr

/-- `ExtractionResult` from `shared/types.ts`. -/
structure ExtractionResult where
  data : List ExtractedRowData
  metadata : ExtractionMetadata
deriving DecidableEq, Repr

/-- `NormalizedSource` from `shared/types.ts`. -/
structure NormalizedSource where
  filename : String
  type : String
  sheet : Option String := none
deriving DecidableEq, Repr

/-- A parsed row is a string-keyed record of cell strings. -/
abbrev Row := List (String × String)

/-- `NormalizedDataContent` from `shared/types.ts`. -/
structure NormalizedDataContent where
  headers : List String
  rows : List Row
  rowCount : Nat
  columnCount : Nat
deriving DecidableEq, Repr

/-- `NormalizedMetadata` from `shared/types.ts`. -/
structure NormalizedMetadata where
  parsedAt : String
  parserVersion : String
deriving DecidableEq, Repr

/-- `NormalizedData` from `shared/types.ts`. -/
structure NormalizedData where
  source : NormalizedSource
  data : NormalizedDataContent
  metadata : NormalizedMetadata
deriving DecidableEq, Repr

/-- `Operation` from `shared/types.ts`.  Timestamps are `Nat`
milliseconds; `fileContent` and `context` (request payload consumed only
by the external parser / prompt builders) are omitted. -/
structure Operation where
  operationId : String
  status : OperationStatus
  createdAt : Nat
  startedAt : Option Nat := none
  completedAt : Option Nat := none
  failedAt : Option Nat := none
  cancelledAt : Option Nat := none
  progress : Option OperationProgress := none
  result : Option ExtractionResult := none
  error : Option OperationError := none
  filename : String := ""
  sheetName : Option String := none
deriving DecidableEq, Repr

/-- The operations store's backing `Map<string, Operation>`, as the list
of its entries in insertion order. -/
abbrev Store := List Operation

/-- `OPERATION_TTL_MS` from `operations.store.ts`. -/
def OPERATION_TTL_MS : OperationStatus → Nat
  | .pending => 30 * 60 * 1000
  | .processing => 60 * 60 * 1000
  | .completed => 24 * 60 * 60 * 1000
  | .failed => 24 * 60 * 60 * 1000
  | .cancelled => 60 * 60 * 1000

/-- `OperationsStore.get`. -/
def OperationsStore.get (s : Store) (operationId : String) : Option Operation :=
  s.find? (fun op => op.operationId = operationId)

/-- `OperationsStore.update`: `Object.assign` of some top-level fields
onto the stored record, expressed as applying the field update `f` to
the record with the given id. -/
def OperationsStore.update (s : Store) (operationId : String)
    (f : Operation → Operation) : Store :=
  s.map (fun op => if op.operationId = operationId then f op else op)

/-- `OperationsStore.has`. -/
def OperationsStore.has (s : Store) (operationId : String) : Bool :=
  (OperationsStore.get s operationId).isSome

/-- `OperationsStore.cleanupExpired`: removes every record whose
`now - createdAt` exceeds the TTL for its status and counts the
removals.  (JS `now - createdAt > ttl` on numbers agrees with truncated
`Nat` subtraction: when `createdAt > now` both sides refuse removal.) -/
def OperationsStore.cleanupExpired (now : Nat) : Store → Store × Nat
  | [] => ([], 0)
  | op :: rest =>
    let (s', n) := OperationsStore.cleanupExpired now rest
    if now - op.createdAt > OPERATION_TTL_MS op.status then
      (s', n + 1)
    else
      (op :: s', n)

/-- Errors thrown by `OperationsManager` methods: `NotFoundException`
from `get`, and the illegal-cancel `Error` from `cancel`. -/
inductive MgrError where
  | notFound
  | cannotCancel (status : OperationStatus)
deriving DecidableEq, Repr

/-- Result of a manager method: the returned value or thrown error,
paired with the store state after the call. -/
abbrev MgrResult := Except MgrError Operation × Store

/-- `OperationsManager.get` (throws `NotFoundException` when absent). -/
def OperationsManager.get (s : Store) (operationId : String) :
    Except MgrError Operation :=
  match OperationsStore.get s operationId with
  | none => .error .notFound
  | some op => .ok op

/-- `OperationsManager.exists`. -/
def OperationsManager.existsOp (s : Store) (operationId : String) : Bool :=
  OperationsStore.has s operationId

/-- The `switch (status)` of `OperationsManager.updateStatus`: the field
updates `{status, <matching timestamp>}` passed to `store.update`. -/
def statusFieldUpdates (status : OperationStatus) (now : Nat)
    (op : Operation) : Operation :=
  match status with
  | .processing => { op with status := status, startedAt := some now }
  | .completed => { op with status := status, completedAt := some now }
  | .failed => { op with status := status, failedAt := some now }
  | .cancelled => { op with status := status, cancelledAt := some now }
  | .pending => { op with status := status }

/-- `OperationsManager.updateStatus`: sets the status and stamps the
matching timestamp; no transition validation. -/
def OperationsManager.updateStatus (s : Store) (operationId : String)
    (status : OperationStatus) (now : Nat) : MgrResult :=
  match OperationsStore.get s operationId with
  | none => (.error .notFound, s)
  | some op =>
    let s' := OperationsStore.update s operationId (statusFieldUpdates status now)
    ((match OperationsStore.get s' operationId with
      | some updated => Except.ok updated
      | none => Except.ok op), s')

/-- `OperationsManager.updateProgress`: current progress (or the zeroed
default) shallow-merged with the partial progress, written back. -/
def OperationsManager.updateProgress (s : Store) (operationId : String)
    (patch : ProgressPatch) : MgrResult :=
  match OperationsStore.get s operationId with
  | none => (.error .notFound, s)
  | some op =>
    let currentProgress := op.progress.getD defaultProgress
    let updatedProgress := applyPatch currentProgress patch
    let s' := OperationsStore.update s operationId
      (fun o => { o with progress := some updatedProgress })
    ((match OperationsStore.get s' operationId with
      | some updated => Except.ok updated
      | none => Except.ok op), s')

/-- `OperationsManager.complete`: status `completed`, `completedAt`,
result, and progress forced to 100% in phase `mapping`. -/
def OperationsManager.complete (s : Store) (operationId : String)
    (result : ExtractionResult) (now : Nat) : MgrResult :=
  match OperationsStore.get s operationId with
  | none => (.error .notFound, s)
  | some op =>
    let s' := OperationsStore.update s operationId (fun o =>
      { o with
        status := .completed
        completedAt := some now
        result := some result
        progress := some
          { phase := .mapping
            currentStep := "complete"
            rowsProcessed := result.metadata.rowsProcessed
            totalRows := result.metadata.rowsProcessed
            percentComplete := 100 } })
    ((match OperationsStore.get s' operationId with
      | some updated => Except.ok updated
      | none => Except.ok op), s')

/-- `fail`'s normalization of a bare string message into a structured
`OperationError`. -/
def normalizeError : String ⊕ OperationError → OperationError
  | .inl message => { code := "EXTRACTION_ERROR", message := message }
  | .inr e => e

/-- `OperationsManager.fail`: status `failed`, `failedAt`, error. -/
def OperationsManager.fail (s : Store) (operationId : String)
    (error : String ⊕ OperationError) (now : Nat) : MgrResult :=
  match OperationsStore.get s operationId with
  | none => (.error .notFound, s)
  | some op =>
    let operationError := normalizeError error
    let s' := OperationsStore.update s operationId (fun o =>
      { o with status := .failed, failedAt := some now, error := some operationError })
    ((match OperationsStore.get s' operationId with
      | some updated => Except.ok updated
      | none => Except.ok op), s')

/-- `OperationsManager.cancel`: throws unless the current status is
`pending` or `processing`; otherwise sets `status = cancelled` and
stamps `cancelledAt`. -/
def OperationsManager.cancel (s : Store) (operationId : String)
    (now : Nat) : MgrResult :=
  match OperationsStore.get s operationId with
  | none => (.error .notFound, s)
  | some op =>
    if op.status = .pending ∨ op.status = .processing then
      let s' := OperationsStore.update s operationId (fun o =>
        { o with status := .cancelled, cancelledAt := some now })
      ((match OperationsStore.get s' operationId with
        | some updated => Except.ok updated
        | none => Except.ok op), s')
    else
      (.error (.cannotCancel op.status), s)

/-- `OperationsManager.canCancel`. -/
def OperationsManager.canCancel (s : Store) (operationId : String) : Bool :=
  match OperationsStore.get s operationId with
  | none => false
  | some op => op.status = .pending ∨ op.status = .processing

/-- Lookup in a string-keyed record modelled as an association list. -/
def lookupAssoc {α : Type} (m : List (String × α)) (key : String) : Option α :=
  (m.find? (fun p => p.1 = key)).map (·.2)

/-- JS property assignment `obj[key] = v` on a record modelled as an
association list: replace the value in place when the key exists,
otherwise append the new entry. -/
def setAssoc {α : Type} (m : List (String × α)) (key : String) (v : α) :
    List (String × α) :=
  if m.any (fun p => p.1 = key) then
    m.map (fun p => if p.1 = key then (key, v) else p)
  else
    m ++ [(key, v)]

/-- `String.prototype.includes`: substring containment, over the
character lists. -/
def charsInclude (pat : List Char) : List Char → Bool
  | [] => pat.isEmpty
  | c :: rest => pat.isPrefixOf (c :: rest) || charsInclude pat rest

/-- `message.includes(pat)`. -/
def strIncludes (s pat : String) : Bool :=
  charsInclude pat.data s.data

/-- `String.prototype.toLowerCase` (ASCII-adequate for the keyword
checks of `getErrorCode`). -/
def strToLower (s : String) : String :=
  String.mk (s.data.map Char.toLower)

/-- `ExtractionWorker.getErrorCode`: keyword classification over the
lowercased error message, in source order. -/
def ExtractionWorker.getErrorCode (message : String) : String :=
  let m := strToLower message
  if strIncludes m "parse" || strIncludes m "sheet" then "PARSE_ERROR"
  else if strIncludes m "llm" || strIncludes m "bedrock" || strIncludes m "inference" then
    "LLM_ERROR"
  else if strIncludes m "unsupported" || strIncludes m "format" then "UNSUPPORTED_FORMAT"
  else "EXTRACTION_ERROR"

/-- `ExtractionWorker.getCurrentPhase`: the last known progress phase,
`parsing` when there is none (or the operation is gone). -/
def ExtractionWorker.getCurrentPhase (s : Store) (operationId : String) :
    OperationPhase :=
  match OperationsStore.get s operationId with
  | some op => (op.progress.map (·.phase)).getD .parsing
  | none => .parsing

/-- The `catch` block of `ExtractionWorker.processOperation`, applied to
the message of the caught error: silent return when the operation no
longer exists or the error is the cancellation sentinel, otherwise
classify and `fail`. -/
def ExtractionWorker.handleError (s : Store) (operationId : String)
    (message : String) (now : Nat) : Store :=
  if OperationsManager.existsOp s operationId = false then s
  else if message = "Operation cancelled" then s
  else
    let operationError : OperationError :=
      { code := ExtractionWorker.getErrorCode message
        message := if message = "" then "Unknown error during extraction" else message
        phase := some (ExtractionWorker.getCurrentPhase s operationId) }
    (OperationsManager.fail s operationId (.inr operationError) now).2

/-- The orchestrator's progress-callback invocations as seen by the
worker: each invocation re-reads the operation, throws the sentinel
`Operation cancelled` when its status is `cancelled` (or propagates
`NotFound` when it is gone), and otherwise forwards the progress patch
into the manager.  Returns the resulting store and the message of the
thrown exception, if any. -/
def ExtractionWorker.runCallbacks (s : Store) (operationId : String) :
    List ProgressPatch → Store × Option String
  | [] => (s, none)
  | patch :: rest =>
    match OperationsManager.get s operationId with
    | .error _ => (s, some ("Operation " ++ operationId ++ " not found"))
    | .ok currentOp =>
      if currentOp.status = .cancelled then (s, some "Operation cancelled")
      else
        let s' := (OperationsManager.updateProgress s operationId patch).2
        ExtractionWorker.runCallbacks s' operationId rest

/-- `ExtractionWorker.processOperation`, as one interference-free run
(no concurrent store mutation while the worker executes).  The external
collaborators are parameters: `parseOutcome` is the parser's verdict,
`callbackPatches` are the progress emissions of the orchestrator run,
and `extractOutcome` is the orchestrator's verdict.  Returns the store
after the run. -/
def ExtractionWorker.processOperation (s : Store) (operationId : String)
    (tStart tNow : Nat) (parseOutcome : Except String Nat)
    (callbackPatches : List ProgressPatch)
    (extractOutcome : Except String ExtractionResult) : Store :=
  match OperationsManager.updateStatus s operationId .processing tStart with
  | (.error _, s1) => s1
  | (.ok _, s1) =>
    match OperationsManager.get s1 operationId with
    | .error _ => s1
    | .ok operation =>
      if operation.status = .cancelled then s1
      else
        let s2 := (OperationsManager.updateProgress s1 operationId
          { phase := some .parsing, currentStep := some "Parsing file..."
            rowsProcessed := some 0, totalRows := some 0
            percentComplete := some 0 }).2
        match parseOutcome with
        | .error msg => ExtractionWorker.handleError s2 operationId msg tNow
        | .ok _rowCount =>
          match OperationsManager.get s2 operationId with
          | .error _ => s2
          | .ok opAfterParse =>
            if opAfterParse.status = .cancelled then s2
            else
              match ExtractionWorker.runCallbacks s2 operationId callbackPatches with
              | (s3, some msg) => ExtractionWorker.handleError s3 operationId msg tNow
              | (s3, none) =>
                match extractOutcome with
                | .error msg => ExtractionWorker.handleError s3 operationId msg tNow
                | .ok result => (OperationsManager.complete s3 operationId result tNow).2

/-- `SAMPLE_THRESHOLD` from `sampler.service.ts`. -/
def SAMPLE_THRESHOLD : Nat := 50

/-- `MAX_SAMPLE_SIZE` from `sampler.service.ts`. -/
def MAX_SAMPLE_SIZE : Nat := 30

/-- `SamplerService.sample`. -/
def SamplerService.sample (normalizedData : NormalizedData) : NormalizedData :=
  if normalizedData.data.rowCount ≤ SAMPLE_THRESHOLD then normalizedData
  else
    let sampledRows := normalizedData.data.rows.take MAX_SAMPLE_SIZE
    { normalizedData with
      data :=
        { headers := normalizedData.data.headers
          rows := sampledRows
          rowCount := sampledRows.length
          columnCount := normalizedData.data.columnCount } }

/-- `SamplerService.getSampleSize`. -/
def SamplerService.getSampleSize (totalRows : Nat) : Nat :=
  if totalRows ≤ SAMPLE_THRESHOLD then totalRows else MAX_SAMPLE_SIZE

/-- `SamplerService.willSample`. -/
def SamplerService.willSample (totalRows : Nat) : Bool :=
  totalRows > SAMPLE_THRESHOLD

/-- `TOKEN_THRESHOLD` from `extractor.service.ts`. -/
def TOKEN_THRESHOLD : Nat := 4000

/-- The chunk loop of `ExtractorService.extractCompoundValues`
(`for (start = 0; start < rowCount; start += chunkSize)`): one LLM call
per chunk `[start, min(start+chunkSize, rowCount))`, extractions
appended in loop order, calls counted.  `llm start end` is the parsed
extraction list the LLM returns for that chunk's row range.  (The
`0 < chunkSize` guard only excludes the state `chunkSize = 0 < rowCount`
on which the source loop would not terminate and which its callers never
produce.) -/
def chunkCalls {α : Type} (llm : Nat → Nat → List α)
    (chunkSize rowCount start : Nat) : Nat × List α :=
  if h : 0 < chunkSize ∧ start < rowCount then
    let stop := min (start + chunkSize) rowCount
    let rest := chunkCalls llm chunkSize rowCount (start + chunkSize)
    (rest.1 + 1, llm start stop ++ rest.2)
  else
    (0, [])
termination_by rowCount - start
decreasing_by omega

/-- `ExtractorService.extractCompoundValues`, given the estimated token
count of the full compound prompt (the prompt building and token
estimation are external pure functions): a single LLM call over all rows
within the token budget, otherwise the chunked loop.  Returns the LLM
call count and the accumulated extractions; polymorphic in the parsed
extraction payload, which this function only concatenates. -/
def extractCompoundValues {α : Type} (estimatedTokens rowCount : Nat)
    (llm : Nat → Nat → List α) : Nat × List α :=
  if estimatedTokens ≤ TOKEN_THRESHOLD then
    (1, llm 0 rowCount)
  else
    let numTargetChunks := (estimatedTokens + TOKEN_THRESHOLD - 1) / TOKEN_THRESHOLD
    let chunkSize := (rowCount + numTargetChunks - 1) / numTargetChunks
    chunkCalls llm chunkSize rowCount 0

/-- `row[column] || ''` on a parsed row. -/
def cell (row : Row) (column : String) : String :=
  ((row.find? (fun p => p.1 = column)).map (·.2)).getD ""

/-- The effective content of `buildExtractedData`'s `compoundLookup` map
for one `(rowIndex, sourceColumn, targetField)` key: `Map.set`
overwrites, so the last occurrence across the accumulated extraction
entries wins. -/
def lookupCompound (exts : List ParsedRowExtraction) (rowIndex : Nat)
    (sourceColumn targetField : String) : Option ParsedFieldExtraction :=
  ((((exts.filter (fun e => e.rowIndex = rowIndex ∧ e.sourceColumn = sourceColumn)).map
      (·.fields)).flatten).filter (fun p => p.1 = targetField)).getLast?.map (·.2)

/-- The confidence values pushed into `allConfidences` while
`buildExtractedData` builds `compoundLookup`: one per field of every
accumulated compound extraction entry. -/
def compoundConfidences (exts : List ParsedRowExtraction) : List ℚ :=
  (exts.map (fun e => e.fields.map (fun p => p.2.confidence))).flatten

/-- The per-row body of `buildExtractedData`'s `rows.map`. -/
def buildExtractedRow (discoveryResult : ParsedDiscoveryResult)
    (exts : List ParsedRowExtraction) (headers : List String)
    (rowIndex : Nat) (row : Row) : ExtractedRowData :=
  let direct := discoveryResult.directMappings.foldl
    (fun acc p =>
      setAssoc acc p.2.sourceColumn
        { value := cell row p.2.sourceColumn
          targetField := p.1
          confidence := p.2.confidence }) []
  let compound := discoveryResult.compoundColumns.foldl
    (fun acc p =>
      setAssoc acc p.1
        { sourceValue := cell row p.1
          extractions := p.2.map (fun targetField =>
            match lookupCompound exts rowIndex p.1 targetField with
            | some fieldData =>
              { targetField := targetField
                extractedValue := fieldData.value
                confidence := fieldData.confidence }
            | none =>
              { targetField := targetField
                extractedValue := none
                confidence := 0 }) }) []
  let mappedSourceColumns :=
    discoveryResult.directMappings.map (fun p => p.2.sourceColumn) ++
      discoveryResult.compoundColumns.map (·.1)
  let unmapped := headers.foldl
    (fun acc h => if h ∈ mappedSourceColumns then acc else setAssoc acc h (cell row h)) []
  { direct := direct, compound := compound, unmapped := unmapped }

/-- `ExtractorService.buildExtractedData`: the extracted rows, and the
`allConfidences` accumulator after it ran (compound confidences pushed
while building the lookup, then each direct mapping's confidence once
per row). -/
def buildExtractedData (normalizedData : NormalizedData)
    (discoveryResult : ParsedDiscoveryResult)
    (exts : List ParsedRowExtraction) : List ExtractedRowData × List ℚ :=
  ( normalizedData.data.rows.mapIdx (fun rowIndex row =>
      buildExtractedRow discoveryResult exts normalizedData.data.headers rowIndex row)
  , compoundConfidences exts ++
      (normalizedData.data.rows.map (fun _ =>
        discoveryResult.directMappings.map (fun p => p.2.confidence))).flatten )

/-- `Math.round` of JavaScript on an exact rational: half rounds toward
positive infinity. -/
def jsRound (q : ℚ) : ℤ :=
  ⌊q + 1 / 2⌋

/-- The `avgConfidence` computation of `ExtractorService.extract`:
`Math.round((sum/len) * 10) / 10`, and `0` for an empty list. -/
def averageConfidence (confs : List ℚ) : ℚ :=
  if confs.isEmpty then 0
  else (jsRound ((confs.sum / confs.length) * 10) : ℚ) / 10

/-- Phase 2 of `ExtractorService.extract`: the compound pass runs only
when discovery flagged compound columns; `compoundResult` ends up as the
accumulated extraction list (`null`, modelled as `[]`, otherwise). -/
def compoundPassResult (normalizedData : NormalizedData)
    (discoveryResult : ParsedDiscoveryResult) (estimatedTokens : Nat)
    (llm : Nat → Nat → List ParsedRowExtraction) : Nat × List ParsedRowExtraction :=
  if discoveryResult.compoundColumns.isEmpty then (0, [])
  else extractCompoundValues estimatedTokens normalizedData.data.rows.length llm

/-- `ExtractorService.extract`, result assembly.  The discovery LLM call
and prompt parsing are external: its parsed result `discoveryResult`,
the estimated token count of the compound prompt, the per-chunk compound
LLM responses `llm`, and the wall-clock duration are inputs.  Progress
emissions do not affect the returned result and are modelled at the
worker (`runCallbacks`). -/
def ExtractorService.extract (normalizedData : NormalizedData)
    (discoveryResult : ParsedDiscoveryResult) (estimatedTokens : Nat)
    (llm : Nat → Nat → List ParsedRowExtraction) (elapsedMs : Nat) : ExtractionResult :=
  let pass2 := compoundPassResult normalizedData discoveryResult estimatedTokens llm
  let llmCalls := 1 + pass2.1
  let built := buildExtractedData normalizedData discoveryResult pass2.2
  let avgConfidence := averageConfidence built.2
  let mappedSourceColumns :=
    discoveryResult.directMappings.map (fun p => p.2.sourceColumn) ++
      discoveryResult.compoundColumns.map (·.1)
  let unmappedColumns :=
    normalizedData.data.headers.filter (fun h => ¬ h ∈ mappedSourceColumns)
  { data := built.1
    metadata :=
      { sourceFile := normalizedData.source.filename
        sourceSheet := normalizedData.source.sheet
        rowsProcessed := normalizedData.data.rowCount
        extractionSummary :=
          { directMappings := discoveryResult.directMappings.length
            compoundExtractions :=
              (discoveryResult.compoundColumns.map (fun p => p.2.length)).sum
            unmappedColumns := unmappedColumns
            unmappedFields := discoveryResult.unmappedFields
            llmCalls := llmCalls
            processingTimeMs := elapsedMs
            averageConfidence := avgConfidence } } }

/-- A flattened final-output row of `MapperService`: target field to
`string | null`. -/
abbrev FinalOutputRow := List (String × Option String)

/-- `MapperService.transformRow`: direct entries first (`value || null`,
so the empty string becomes null), then every compound extraction's
`extractedValue`, assigned into one record. -/
def MapperService.transformRow (row : ExtractedRowData) : FinalOutputRow :=
  let afterDirect := row.direct.foldl
    (fun output p =>
      setAssoc output p.2.targetField
        (if p.2.value = "" then none else some p.2.value)) []
  row.compound.foldl
    (fun output p =>
      p.2.extractions.foldl
        (fun o it => setAssoc o it.targetField it.extractedValue) output)
    afterDirect

/-- `MapperService.toFinalOutput`. -/
def MapperService.toFinalOutput (result : ExtractionResult) : List FinalOutputRow :=
  result.data.map MapperService.transformRow

/-- The chunk partition described by the specification for C5 (stated
from the spec's words, as the refinement target of the chunk loop):
`ceil(R/cs)` contiguous ranges `[i*cs, min((i+1)*cs, R))`; ceiling
division on naturals is `(a + b - 1) / b`. -/
def chunkRangesSpec (rowCount chunkSize : Nat) : List (Nat × Nat) :=
  (List.range ((rowCount + chunkSize - 1) / chunkSize)).map
    (fun i => (i * chunkSize, min ((i + 1) * chunkSize) rowCount))

/-! ## Store and manager lemmas -/

theorem get_update_self (s : Store) (id : String) (f : Operation → Operation)
    (hf : ∀ op, (f op).operationId = op.operationId) :
    OperationsStore.get (OperationsStore.update s id f) id =
      (OperationsStore.get s id).map f := by
  induction s with
  | nil => rfl
  | cons op rest ih =>
    simp only [OperationsStore.update, List.map_cons, OperationsStore.get,
      List.find?_cons] at *
    by_cases h : op.operationId = id
    · simp [h, hf op]
    · simp [h, ih]

theorem orElse_getD {α : Type} (a b : Option α) (c : α) :
    (a <|> b).getD c = a.getD (b.getD c) := by
  cases a <;> rfl

theorem applyPatch_applyPatch (base : OperationProgress) (p1 p2 : ProgressPatch) :
    applyPatch (applyPatch base p1) p2 =
      { phase := (p2.phase <|> p1.phase).getD base.phase
        currentStep := (p2.currentStep <|> p1.currentStep).getD base.currentStep
        rowsProcessed := (p2.rowsProcessed <|> p1.rowsProcessed).getD base.rowsProcessed
        totalRows := (p2.totalRows <|> p1.totalRows).getD base.totalRows
        percentComplete := (p2.percentComplete <|> p1.percentComplete).getD
          base.percentComplete } := by
  simp [applyPatch, orElse_getD]

/-- C2: `OperationsManager.cancel` succeeds exactly when the operation
exists with current status `pending` or `processing`; on success it sets
`status = cancelled` and stamps `cancelledAt = now` in the store; on
any failure it raises an error and leaves the store (hence the stored
Operation record) entirely unchanged. -/
theorem claim_C2_cancel_guard (s : Store) (id : String) (now : Nat) :
    ((∃ op', (OperationsManager.cancel s id now).1 = .ok op') ↔
      (∃ op, OperationsStore.get s id = some op ∧
        (op.status = .pending ∨ op.status = .processing))) ∧
    (∀ e, (OperationsManager.cancel s id now).1 = .error e →
      (OperationsManager.cancel s id now).2 = s) ∧
    (∀ op', (OperationsManager.cancel s id now).1 = .ok op' →
      op'.status = .cancelled ∧ op'.cancelledAt = some now ∧
      OperationsStore.get (OperationsManager.cancel s id now).2 id = some op') := by
  cases h : OperationsStore.get s id with
  | none =>
    have hcancel : OperationsManager.cancel s id now = (.error .notFound, s) := by
      simp [OperationsManager.cancel, h]
    exact ⟨by simp [hcancel], fun e he => by simp [hcancel],
      fun op' hop' => by simp [hcancel] at hop'⟩
  | some op =>
    have hs' := get_update_self s id
      (fun o => { o with status := .cancelled, cancelledAt := some now }) (fun _ => rfl)
    by_cases hc : op.status = .pending ∨ op.status = .processing
    · have hcancel : OperationsManager.cancel s id now =
          (.ok ({ op with status := .cancelled, cancelledAt := some now }),
           OperationsStore.update s id
             (fun o => { o with status := .cancelled, cancelledAt := some now })) := by
        simp [OperationsManager.cancel, h, hc, hs']
      refine ⟨by simp [hcancel, hc], fun e he => by simp [hcancel] at he,
        fun op' hop' => ?_⟩
      rw [hcancel] at hop'
      simp only [Except.ok.injEq] at hop'
      subst hop'
      refine ⟨rfl, rfl, ?_⟩
      rw [hcancel]
      simp [hs', h]
    · have hcancel : OperationsManager.cancel s id now =
          (.error (.cannotCancel op.status), s) := by
        simp [OperationsManager.cancel, h, hc]
      exact ⟨by simp [hcancel, hc], fun e he => by simp [hcancel],
        fun op' hop' => by simp [hcancel] at hop'⟩

/-- C2 witness: on a store holding one pending operation, `cancel`
succeeds and the stored record becomes `cancelled` with `cancelledAt`
stamped. -/
theorem claim_C2_witness :
    ∃ op', (OperationsManager.cancel
        [{ operationId := "op1", status := .pending, createdAt := 0 }] "op1" 77).1 = .ok op' ∧
      op'.status = .cancelled ∧ op'.cancelledAt = some 77 := by
  obtain ⟨hiff, _, hok⟩ := claim_C2_cancel_guard
    [{ operationId := "op1", status := .pending, createdAt := 0 }] "op1" 77
  obtain ⟨op', hop'⟩ := hiff.mpr
    ⟨{ operationId := "op1", status := .pending, createdAt := 0 }, by decide, Or.inl rfl⟩
  obtain ⟨h1, h2, _⟩ := hok op' hop'
  exact ⟨op', hop', h1, h2⟩

theorem updateProgress_store (s : Store) (id : String) (op : Operation)
    (patch : ProgressPatch) (hget : OperationsStore.get s id = some op) :
    (OperationsManager.updateProgress s id patch).2 =
      OperationsStore.update s id (fun o =>
        { o with progress := some (applyPatch (op.progress.getD defaultProgress) patch) }) := by
  simp [OperationsManager.updateProgress, hget]

theorem updateProgress_get (s : Store) (id : String) (op : Operation)
    (patch : ProgressPatch) (hget : OperationsStore.get s id = some op) :
    OperationsStore.get (OperationsManager.updateProgress s id patch).2 id =
      some { op with progress := some (applyPatch (op.progress.getD defaultProgress) patch) } := by
  have hs' := get_update_self s id
    (fun o => { o with progress := some (applyPatch (op.progress.getD defaultProgress) patch) })
    (fun _ => rfl)
  rw [updateProgress_store s id op patch hget, hs', hget]
  rfl

/-- C3: two successive `updateProgress` calls shallow-merge: the final
stored progress takes every field the second partial supplied, falls
back to the first call's value for fields the second omitted, and falls
back to the previous progress (the zeroed default when none existed)
for fields neither supplied. -/
theorem claim_C3_progress_merge (s : Store) (id : String) (op : Operation)
    (p1 p2 : ProgressPatch) (hget : OperationsStore.get s id = some op) :
    ∃ op2,
      OperationsStore.get
        ((OperationsManager.updateProgress
          (OperationsManager.updateProgress s id p1).2 id p2).2) id = some op2 ∧
      op2.progress = some
        { phase := (p2.phase <|> p1.phase).getD
            ((op.progress.getD defaultProgress).phase)
          currentStep := (p2.currentStep <|> p1.currentStep).getD
            ((op.progress.getD defaultProgress).currentStep)
          rowsProcessed := (p2.rowsProcessed <|> p1.rowsProcessed).getD
            ((op.progress.getD defaultProgress).rowsProcessed)
          totalRows := (p2.totalRows <|> p1.totalRows).getD
            ((op.progress.getD defaultProgress).totalRows)
          percentComplete := (p2.percentComplete <|> p1.percentComplete).getD
            ((op.progress.getD defaultProgress).percentComplete) } := by
  have hget1 := updateProgress_get s id op p1 hget
  have hget2 := updateProgress_get _ id _ p2 hget1
  refine ⟨_, hget2, ?_⟩
  show some (applyPatch (applyPatch (op.progress.getD defaultProgress) p1) p2) = _
  rw [applyPatch_applyPatch]

/-- C3 witness: on an operation with no prior progress,
`updateProgress(id, \x7bphase: parsing, totalRows: 100\x7d)` then
`updateProgress(id, \x7browsProcessed: 50\x7d)` yields phase `parsing`,
`totalRows = 100`, `rowsProcessed = 50`. -/
theorem claim_C3_witness :
    ∃ op2,
      OperationsStore.get
        ((OperationsManager.updateProgress
          (OperationsManager.updateProgress
            [{ operationId := "op1", status := .processing, createdAt := 0 }] "op1"
            { phase := some .parsing, totalRows := some 100 }).2 "op1"
          { rowsProcessed := some 50 }).2) "op1" = some op2 ∧
      op2.progress = some
        { phase := .parsing, currentStep := "", rowsProcessed := 50,
          totalRows := 100, percentComplete := 0 } := by
  obtain ⟨op2, hg, hp⟩ := claim_C3_progress_merge
    [{ operationId := "op1", status := .processing, createdAt := 0 }] "op1"
    { operationId := "op1", status := .processing, createdAt := 0 }
    { phase := some .parsing, totalRows := some 100 }
    { rowsProcessed := some 50 } (by decide)
  exact ⟨op2, hg, by rw [hp]; rfl⟩

/-- C4: `cleanupExpired` removes exactly the records whose age
`now - createdAt` exceeds the status TTL (pending 30 min, processing
60 min, completed 24 h, failed 24 h, cancelled 60 min, all measured
from `createdAt`), keeps every other record unchanged and in order, and
returns the number of records removed. -/
theorem claim_C4_ttl_eviction (now : Nat) (s : Store) :
    OperationsStore.cleanupExpired now s =
      ( s.filter (fun op => now - op.createdAt ≤
          match op.status with
          | .pending => 30 * 60 * 1000
          | .processing => 60 * 60 * 1000
          | .completed => 24 * 60 * 60 * 1000
          | .failed => 24 * 60 * 60 * 1000
          | .cancelled => 60 * 60 * 1000)
      , (s.filter (fun op =>
          (match op.status with
           | .pending => 30 * 60 * 1000
           | .processing => 60 * 60 * 1000
           | .completed => 24 * 60 * 60 * 1000
           | .failed => 24 * 60 * 60 * 1000
           | .cancelled => 60 * 60 * 1000) < now - op.createdAt)).length ) := by
  induction s with
  | nil => rfl
  | cons op rest ih =>
    have httl : (OPERATION_TTL_MS op.status) =
        (match op.status with
         | .pending => 30 * 60 * 1000
         | .processing => 60 * 60 * 1000
         | .completed => 24 * 60 * 60 * 1000
         | .failed => 24 * 60 * 60 * 1000
         | .cancelled => 60 * 60 * 1000) := by
      cases op.status <;> rfl
    by_cases hx : OPERATION_TTL_MS op.status < now - op.createdAt
    · simp only [OperationsStore.cleanupExpired, ih, gt_iff_lt, if_pos hx,
        List.filter_cons]
      rw [← httl]
      simp [hx, Nat.not_le.mpr hx]
    · simp only [OperationsStore.cleanupExpired, ih, gt_iff_lt, if_neg hx,
        List.filter_cons]
      rw [← httl]
      simp [hx, Nat.not_lt.mp hx]

/-- C4 witness: a pending operation 31 minutes old is removed while one
10 minutes old is retained, and the removed count is 1. -/
theorem claim_C4_witness :
    OperationsStore.cleanupExpired (31 * 60 * 1000)
      [{ operationId := "old", status := .pending, createdAt := 0 },
       { operationId := "new", status := .pending, createdAt := 21 * 60 * 1000 }] =
      ([{ operationId := "new", status := .pending, createdAt := 21 * 60 * 1000 }], 1) := by
  rw [claim_C4_ttl_eviction]
  decide

/-- C9: `sample` returns the input unchanged when `rowCount ≤ 50`;
when `rowCount > 50` (with the documented invariant
`rows.length = rowCount`) it returns a copy whose rows are exactly the
first 30 original rows in order, `rowCount` adjusted to 30, with
`headers`, `columnCount`, `source` and `metadata` unchanged. -/
theorem claim_C9_sampling_bound (d : NormalizedData) :
    (d.data.rowCount ≤ 50 → SamplerService.sample d = d) ∧
    (d.data.rows.length = d.data.rowCount → 50 < d.data.rowCount →
      SamplerService.sample d =
        { source := d.source
          data :=
            { headers := d.data.headers
              rows := d.data.rows.take 30
              rowCount := 30
              columnCount := d.data.columnCount }
          metadata := d.metadata }) := by
  constructor
  · intro h
    simp [SamplerService.sample, SAMPLE_THRESHOLD, h]
  · intro hlen hgt
    have hnle : ¬ d.data.rowCount ≤ 50 := Nat.not_le.mpr hgt
    have htake : (d.data.rows.take 30).length = 30 := by
      rw [List.length_take]
      omega
    simp only [SamplerService.sample, SAMPLE_THRESHOLD, MAX_SAMPLE_SIZE, if_neg hnle,
      htake]

/-- C9 witness: a 51-row dataset is sampled down to its first 30 rows
with `rowCount = 30`, and a 2-row dataset is returned unchanged. -/
theorem claim_C9_witness :
    SamplerService.sample
      { source := { filename := "t.csv", type := "csv" }
        data := { headers := ["A"], rows := List.replicate 51 [("A", "x")],
                  rowCount := 51, columnCount := 1 }
        metadata := { parsedAt := "now", parserVersion := "1.0.0" } } =
      { source := { filename := "t.csv", type := "csv" }
        data := { headers := ["A"], rows := List.replicate 30 [("A", "x")],
                  rowCount := 30, columnCount := 1 }
        metadata := { parsedAt := "now", parserVersion := "1.0.0" } } := by
  rw [(claim_C9_sampling_bound _).2 (by decide) (by decide)]
  decide

/-- C1 counterexample: a Worker run started on an operation that is
already `cancelled` does move it out of `cancelled` — the worker's first
action `updateStatus(id, processing)` overwrites the status before the
cancellation check reads it, so an interference-free run on a cancelled
operation ends `completed`, falsifying the claimed terminal-status
invariant at this concrete input. -/
theorem claim_C1_counterexample :
    (OperationsStore.get
      (ExtractionWorker.processOperation
        [{ operationId := "op1", status := .cancelled, createdAt := 0, cancelledAt := some 5 }]
        "op1" 10 20 (.ok 0) []
        (.ok ⟨[], ⟨"f.csv", none, 0, ⟨0, 0, [], [], 1, 0, 0⟩⟩⟩))
      "op1").map (fun op => op.status) = some .completed ∧
    OperationStatus.completed ≠ OperationStatus.cancelled := by
  constructor
  · decide
  · decide

/-- C1 (amended): once an operation's status is terminal (`completed`,
`failed` or `cancelled`), `cancel` raises an error and leaves the store
unchanged and `updateProgress` never changes the status; but
`updateStatus` (and through it `complete` and `fail`, and the Worker's
opening `updateStatus(processing)`) overwrites a terminal status
unconditionally — only `cancel` validates transitions. -/
theorem claim_C1_amended (s : Store) (id : String) (op : Operation) (now : Nat)
    (patch : ProgressPatch) (st : OperationStatus)
    (hget : OperationsStore.get s id = some op)
    (hterm : op.status = .completed ∨ op.status = .failed ∨ op.status = .cancelled) :
    (OperationsManager.cancel s id now = (.error (.cannotCancel op.status), s)) ∧
    (∀ op', OperationsStore.get (OperationsManager.updateProgress s id patch).2 id = some op' →
      op'.status = op.status) ∧
    (∀ op', OperationsStore.get (OperationsManager.updateStatus s id st now).2 id = some op' →
      op'.status = st) := by
  have hnc : ¬(op.status = .pending ∨ op.status = .processing) := by
    rcases hterm with h | h | h <;> simp [h]
  refine ⟨by simp [OperationsManager.cancel, hget, hnc], ?_, ?_⟩
  · intro op' hop'
    rw [updateProgress_get s id op patch hget] at hop'
    simp only [Option.some.injEq] at hop'
    subst hop'
    rfl
  · intro op' hop'
    have hst : (OperationsManager.updateStatus s id st now).2 =
        OperationsStore.update s id (statusFieldUpdates st now) := by
      simp [OperationsManager.updateStatus, hget]
    rw [hst, get_update_self s id _ (fun o => by cases st <;> rfl), hget] at hop'
    simp only [Option.map_some'] at hop'
    simp only [Option.some.injEq] at hop'
    subst hop'
    cases st <;> rfl

/-- C1 witness: `cancel` on a concrete `completed` operation errors and
leaves the one-record store untouched. -/
theorem claim_C1_witness :
    OperationsManager.cancel
      [{ operationId := "op1", status := .completed, createdAt := 0 }] "op1" 9 =
      (.error (.cannotCancel .completed),
       [{ operationId := "op1", status := .completed, createdAt := 0 }]) := by
  have h := claim_C1_amended
    [{ operationId := "op1", status := .completed, createdAt := 0 }] "op1"
    { operationId := "op1", status := .completed, createdAt := 0 } 9 {} .processing
    (by decide) (Or.inl rfl)
  exact h.1

/-- Effect of `OperationsManager.fail` on the stored record. -/
theorem fail_get (s : Store) (id : String) (op : Operation)
    (err : String ⊕ OperationError) (now : Nat)
    (hget : OperationsStore.get s id = some op) :
    OperationsStore.get (OperationsManager.fail s id err now).2 id =
      some { op with status := .failed, failedAt := some now, error := some (normalizeError err) } := by
  have hupd := get_update_self s id
    (fun o => { o with status := .failed, failedAt := some now, error := some (normalizeError err) })
    (fun _ => rfl)
  have h2 : (OperationsManager.fail s id err now).2 =
      OperationsStore.update s id
        (fun o => { o with status := .failed, failedAt := some now, error := some (normalizeError err) }) := by
    simp [OperationsManager.fail, hget]
  rw [h2, hupd, hget]
  rfl

/-- C6: when the Worker catches a non-cancellation error while its
operation still exists, it fails the operation with the phase taken from
the last known progress (`parsing` when none) and a code classified over
the lowercased message in priority order: parse/sheet, then
llm/bedrock/inference, then unsupported/format, then the catch-all
`EXTRACTION_ERROR`. -/
theorem claim_C6_error_classification (s : Store) (id : String) (op : Operation)
    (message : String) (now : Nat)
    (hget : OperationsStore.get s id = some op)
    (hnc : message ≠ "Operation cancelled") :
    ∃ op', OperationsStore.get (ExtractionWorker.handleError s id message now) id = some op' ∧
      op'.status = .failed ∧
      ∃ e, op'.error = some e ∧
        e.phase = some ((op.progress.map (fun p => p.phase)).getD .parsing) ∧
        ((strIncludes (strToLower message) "parse" ||
            strIncludes (strToLower message) "sheet") = true →
          e.code = "PARSE_ERROR") ∧
        ((strIncludes (strToLower message) "parse" ||
            strIncludes (strToLower message) "sheet") = false →
         (strIncludes (strToLower message) "llm" || strIncludes (strToLower message) "bedrock" ||
            strIncludes (strToLower message) "inference") = true →
          e.code = "LLM_ERROR") ∧
        ((strIncludes (strToLower message) "parse" ||
            strIncludes (strToLower message) "sheet") = false →
         (strIncludes (strToLower message) "llm" || strIncludes (strToLower message) "bedrock" ||
            strIncludes (strToLower message) "inference") = false →
         (strIncludes (strToLower message) "unsupported" ||
            strIncludes (strToLower message) "format") = true →
          e.code = "UNSUPPORTED_FORMAT") ∧
        ((strIncludes (strToLower message) "parse" ||
            strIncludes (strToLower message) "sheet") = false →
         (strIncludes (strToLower message) "llm" || strIncludes (strToLower message) "bedrock" ||
            strIncludes (strToLower message) "inference") = false →
         (strIncludes (strToLower message) "unsupported" ||
            strIncludes (strToLower message) "format") = false →
          e.code = "EXTRACTION_ERROR") := by
  have hex : OperationsManager.existsOp s id = true := by
    simp [OperationsManager.existsOp, OperationsStore.has, hget]
  have hherr : ExtractionWorker.handleError s id message now =
      (OperationsManager.fail s id
        (.inr { code := ExtractionWorker.getErrorCode message
                message := if message = "" then "Unknown error during extraction" else message
                phase := some (ExtractionWorker.getCurrentPhase s id) }) now).2 := by
    simp [ExtractionWorker.handleError, hex, hnc]
  have hgot := fail_get s id op
    (.inr { code := ExtractionWorker.getErrorCode message
            message := if message = "" then "Unknown error during extraction" else message
            phase := some (ExtractionWorker.getCurrentPhase s id) }) now hget
  refine ⟨_, by rw [hherr]; exact hgot, rfl, ?_⟩
  refine ⟨_, rfl, ?_, ?_, ?_, ?_, ?_⟩
  · show some (ExtractionWorker.getCurrentPhase s id) = _
    simp [ExtractionWorker.getCurrentPhase, hget]
  · intro h1
    show ExtractionWorker.getErrorCode message = _
    simp only [ExtractionWorker.getErrorCode]
    rw [h1]
    rfl
  · intro h1 h2
    show ExtractionWorker.getErrorCode message = _
    simp only [ExtractionWorker.getErrorCode]
    rw [h1, h2]
    rfl
  · intro h1 h2 h3
    show ExtractionWorker.getErrorCode message = _
    simp only [ExtractionWorker.getErrorCode]
    rw [h1, h2, h3]
    rfl
  · intro h1 h2 h3
    show ExtractionWorker.getErrorCode message = _
    simp only [ExtractionWorker.getErrorCode]
    rw [h1, h2, h3]
    rfl

/-- C6 witness: an error message mentioning inference while progress is
in phase `discovery` fails the operation with code `LLM_ERROR` and
phase `discovery`. -/
theorem claim_C6_witness :
    ∃ op', OperationsStore.get
        (ExtractionWorker.handleError
          [{ operationId := "op1", status := .processing, createdAt := 0, progress := some { phase := .discovery, currentStep := "x", rowsProcessed := 0, totalRows := 2, percentComplete := 10 } }]
          "op1" "Bedrock inference timed out" 50) "op1" = some op' ∧
      op'.status = .failed ∧
      ∃ e, op'.error = some e ∧ e.code = "LLM_ERROR" ∧ e.phase = some .discovery := by
  obtain ⟨op', hop', hst, e, he, hph, hp1, hp2, hp3, hp4⟩ :=
    claim_C6_error_classification
      [{ operationId := "op1", status := .processing, createdAt := 0, progress := some { phase := .discovery, currentStep := "x", rowsProcessed := 0, totalRows := 2, percentComplete := 10 } }]
      "op1"
      { operationId := "op1", status := .processing, createdAt := 0, progress := some { phase := .discovery, currentStep := "x", rowsProcessed := 0, totalRows := 2, percentComplete := 10 } }
      "Bedrock inference timed out" 50 (by decide) (by decide)
  exact ⟨op', hop', hst, e, he, hp2 (by decide) (by decide), by rw [hph]; rfl⟩

theorem lt_ceilDiv_iff (cs R k : Nat) (hcs : 0 < cs) :
    k < (R + cs - 1) / cs ↔ k * cs < R := by
  rw [Nat.lt_iff_add_one_le, Nat.le_div_iff_mul_le hcs, Nat.add_one_mul]
  generalize k * cs = a
  omega

theorem range_succ_flatten {β : Type} (f : Nat → List β) (n : Nat) :
    ((List.range (n + 1)).map f).flatten =
      f 0 ++ ((List.range n).map (fun i => f (i + 1))).flatten := by
  rw [List.range_succ_eq_map, List.map_cons, List.flatten_cons, List.map_map]
  rfl

theorem chunkCalls_closed {α : Type} (llm : Nat → Nat → List α) (cs R : Nat)
    (hcs : 0 < cs) :
    ∀ n k, (R + cs - 1) / cs - k = n →
      chunkCalls llm cs R (k * cs) =
        ( n
        , ((List.range n).map
            (fun i => llm ((k + i) * cs) (min ((k + i + 1) * cs) R))).flatten ) := by
  intro n
  induction n with
  | zero =>
    intro k hk
    have hnlt : ¬ k * cs < R := by
      intro hlt
      have := (lt_ceilDiv_iff cs R k hcs).mpr hlt
      omega
    rw [chunkCalls]
    simp [hnlt]
  | succ n ih =>
    intro k hk
    have hkd : k < (R + cs - 1) / cs := by omega
    have hlt : k * cs < R := (lt_ceilDiv_iff cs R k hcs).mp hkd
    have hnext : (R + cs - 1) / cs - (k + 1) = n := by omega
    have ihk := ih (k + 1) hnext
    have hKcs : k * cs + cs = (k + 1) * cs := by ring
    rw [chunkCalls, dif_pos ⟨hcs, hlt⟩]
    show ((chunkCalls llm cs R (k * cs + cs)).1 + 1,
      llm (k * cs) (min (k * cs + cs) R) ++ (chunkCalls llm cs R (k * cs + cs)).2) = _
    rw [hKcs, ihk]
    rw [range_succ_flatten (fun i => llm ((k + i) * cs) (min ((k + i + 1) * cs) R)) n]
    refine congrArg (Prod.mk (n + 1)) ?_
    congr 1
    · apply congrArg List.flatten
      apply List.map_congr_left
      intro i hi
      have h1 : k + 1 + i = k + (i + 1) := by omega
      show llm ((k + 1 + i) * cs) (min ((k + 1 + i + 1) * cs) R) = _
      rw [h1]

theorem chunkRanges_cover_aux (cs R : Nat) (hcs : 0 < cs) :
    ∀ n k, (R + cs - 1) / cs - k = n →
      ((List.range n).map
        (fun i => List.range' ((k + i) * cs)
          (min ((k + i + 1) * cs) R - (k + i) * cs))).flatten =
      List.range' (k * cs) (R - k * cs) := by
  intro n
  induction n with
  | zero =>
    intro k hk
    have hnlt : ¬ k * cs < R := by
      intro hlt
      have := (lt_ceilDiv_iff cs R k hcs).mpr hlt
      omega
    have hz : R - k * cs = 0 := by omega
    simp [hz]
  | succ n ih =>
    intro k hk
    have hkd : k < (R + cs - 1) / cs := by omega
    have hlt : k * cs < R := (lt_ceilDiv_iff cs R k hcs).mp hkd
    have hnext : (R + cs - 1) / cs - (k + 1) = n := by omega
    have ihk := ih (k + 1) hnext
    rw [range_succ_flatten
      (fun i => List.range' ((k + i) * cs) (min ((k + i + 1) * cs) R - (k + i) * cs)) n]
    have hre : ((List.range n).map (fun i =>
        List.range' ((k + (i + 1)) * cs)
          (min ((k + (i + 1) + 1) * cs) R - (k + (i + 1)) * cs))).flatten =
        List.range' ((k + 1) * cs) (R - (k + 1) * cs) := by
      rw [← ihk]
      apply congrArg List.flatten
      apply List.map_congr_left
      intro i hi
      have h1 : k + (i + 1) = k + 1 + i := by omega
      rw [h1]
    show List.range' ((k + 0) * cs) (min ((k + 0 + 1) * cs) R - (k + 0) * cs) ++ _ = _
    rw [hre]
    simp only [Nat.add_zero]
    have hx : (k + 1) * cs = k * cs + cs := by ring
    by_cases hend : (k + 1) * cs ≤ R
    · have hmin : min ((k + 1) * cs) R = (k + 1) * cs := min_eq_left hend
      rw [hmin, hx]
      rw [show k * cs + cs - k * cs = cs from by omega]
      rw [List.range'_append_1]
      rw [show R - (k * cs + cs) + cs = R - k * cs from by omega]
    · have hmin : min ((k + 1) * cs) R = R := min_eq_right (le_of_not_le hend)
      have hz : R - (k + 1) * cs = 0 := by omega
      rw [hmin, hz]
      simp

/-- C5: within the 4000-token budget the compound pass makes exactly one
LLM call covering all rows; above it, with
`chunkSize = ceil(R / ceil(T/4000))` (natural ceiling division written
`(a+b-1)/b`), the rows are partitioned into the contiguous ranges
`[i*chunkSize, min((i+1)*chunkSize, R))`, one LLM call per range, the
returned call count is the number of ranges, the accumulated extractions
are the concatenation of the per-chunk results in chunk order, every
range has length at most `chunkSize`, and the ranges cover every row
index exactly once in order. -/
theorem claim_C5_chunking {α : Type} (T R : Nat) (llm : Nat → Nat → List α) :
    (T ≤ 4000 → extractCompoundValues T R llm = (1, llm 0 R)) ∧
    (4000 < T → ∀ cs, cs = (R + (T + 3999) / 4000 - 1) / ((T + 3999) / 4000) →
      extractCompoundValues T R llm =
        ((chunkRangesSpec R cs).length,
         ((chunkRangesSpec R cs).map (fun p => llm p.1 p.2)).flatten) ∧
      ((chunkRangesSpec R cs).map (fun p => List.range' p.1 (p.2 - p.1))).flatten =
        List.range R ∧
      (∀ p ∈ chunkRangesSpec R cs, p.2 - p.1 ≤ cs)) := by
  constructor
  · intro hle
    simp [extractCompoundValues, TOKEN_THRESHOLD, hle]
  · intro hgt cs hcs
    have hnT : 0 < (T + 3999) / 4000 := by
      have : 4000 ≤ T + 3999 := by omega
      exact Nat.div_pos this (by norm_num)
    by_cases hR : R = 0
    · subst hR
      have hcs0 : cs = 0 := by
        rw [hcs]
        have : (T + 3999) / 4000 - 1 < (T + 3999) / 4000 := by omega
        exact Nat.div_eq_of_lt (by omega)
      subst hcs0
      have h1 : extractCompoundValues T 0 llm = chunkCalls llm ((0 + (T + 3999) / 4000 - 1) / ((T + 3999) / 4000)) 0 0 := by
        simp [extractCompoundValues, TOKEN_THRESHOLD, Nat.not_le.mpr hgt]
      have h2 : (0 + (T + 3999) / 4000 - 1) / ((T + 3999) / 4000) = 0 := by
        exact Nat.div_eq_of_lt (by omega)
      rw [h1, h2, chunkCalls]
      refine ⟨by simp [chunkRangesSpec], by simp [chunkRangesSpec], by simp [chunkRangesSpec]⟩
    · have hR0 : 0 < R := Nat.pos_of_ne_zero hR
      have hcspos : 0 < cs := by
        rw [hcs]
        exact (lt_ceilDiv_iff ((T + 3999) / 4000) R 0 hnT).mpr (by simpa using hR0)
      have hd : (R + cs - 1) / cs - 0 = (R + cs - 1) / cs := rfl
      have hclosed := chunkCalls_closed llm cs R hcspos ((R + cs - 1) / cs) 0 hd
      have hcover := chunkRanges_cover_aux cs R hcspos ((R + cs - 1) / cs) 0 hd
      simp only [Nat.zero_mul, Nat.zero_add, Nat.sub_zero] at hclosed hcover
      have e1 : T + 4000 - 1 = T + 3999 := by omega
      have hmain : extractCompoundValues T R llm = chunkCalls llm cs R 0 := by
        rw [hcs]
        simp only [extractCompoundValues, TOKEN_THRESHOLD]
        rw [if_neg (by omega)]
        simp only [e1]
      refine ⟨?_, ?_, ?_⟩
      · rw [hmain, hclosed]
        simp only [chunkRangesSpec, List.length_map, List.length_range, List.map_map]
        refine congrArg (Prod.mk _) ?_
        apply congrArg List.flatten
        apply List.map_congr_left
        intro i hi
        rfl
      · simp only [chunkRangesSpec, List.map_map]
        have hfun : ((fun p : Nat × Nat => List.range' p.1 (p.2 - p.1)) ∘
            (fun i => (i * cs, min ((i + 1) * cs) R))) =
            (fun i => List.range' (i * cs) (min ((i + 1) * cs) R - i * cs)) := rfl
        rw [hfun, hcover, List.range_eq_range']
      · intro p hp
        simp only [chunkRangesSpec, List.mem_map, List.mem_range] at hp
        obtain ⟨i, hi, hpe⟩ := hp
        subst hpe
        have hx : (i + 1) * cs = i * cs + cs := by ring
        simp only
        rw [hx]
        have hmle : min (i * cs + cs) R ≤ i * cs + cs := min_le_left _ _
        calc min (i * cs + cs) R - i * cs
            ≤ (i * cs + cs) - i * cs := Nat.sub_le_sub_right hmle _
          _ = cs := by omega

/-- C5 witness: estimated 9000 tokens over 5 rows gives
`ceil(9000/4000) = 3` target chunks, `chunkSize = ceil(5/3) = 2`, hence
chunks `[0,2) [2,4) [4,5)`: 3 LLM calls and the per-chunk results
concatenated in order. -/
theorem claim_C5_witness :
    extractCompoundValues 9000 5 (fun s e => [s * 100 + e]) = (3, [2, 204, 405]) := by
  have h := (claim_C5_chunking 9000 5 (fun s e => [s * 100 + e])).2 (by decide) 2 (by decide)
  rw [h.1]
  decide

theorem foldl_setAssoc_nodup {β α : Type} (g : String × β → α) :
    ∀ (l : List (String × β)) (acc : List (String × α)),
      (l.map Prod.fst).Nodup → (∀ p ∈ l, ∀ q ∈ acc, q.1 ≠ p.1) →
      l.foldl (fun acc p => setAssoc acc p.1 (g p)) acc =
        acc ++ l.map (fun p => (p.1, g p)) := by
  intro l
  induction l with
  | nil => intro acc _ _; simp
  | cons hd tl ih =>
    intro acc hnodup hdisj
    rw [List.map_cons] at hnodup
    have hnd := List.nodup_cons.mp hnodup
    simp only [List.foldl_cons]
    have hset : setAssoc acc hd.1 (g hd) = acc ++ [(hd.1, g hd)] := by
      unfold setAssoc
      rw [if_neg]
      intro hc
      rw [List.any_eq_true] at hc
      obtain ⟨q, hq, hqe⟩ := hc
      exact hdisj hd (List.mem_cons_self _ _) q hq (by simpa using hqe)
    rw [hset]
    rw [ih (acc ++ [(hd.1, g hd)]) hnd.2 ?disj]
    · simp
    case disj =>
      intro p hp q hq
      rcases List.mem_append.mp hq with hq | hq
      · exact hdisj p (List.mem_cons_of_mem _ hp) q hq
      · have hqe : q = (hd.1, g hd) := by simpa using hq
        subst hqe
        intro hcontra
        exact hnd.1 (hcontra ▸ List.mem_map_of_mem Prod.fst hp)

theorem lookupAssoc_map_nodup {β α : Type} (g : String × β → α) :
    ∀ (l : List (String × β)), (l.map Prod.fst).Nodup →
      ∀ (k : String) (b : β), (k, b) ∈ l →
      lookupAssoc (l.map (fun p => (p.1, g p))) k = some (g (k, b)) := by
  intro l
  induction l with
  | nil => intro _ k b hmem; cases hmem
  | cons hd tl ih =>
    intro hnodup k b hmem
    rw [List.map_cons] at hnodup
    have hnd := List.nodup_cons.mp hnodup
    by_cases hk : hd.1 = k
    · have hhd : hd = (k, b) := by
        rcases List.mem_cons.mp hmem with h | h
        · exact h.symm
        · exact absurd (hk ▸ List.mem_map_of_mem Prod.fst h) hnd.1
      subst hhd
      simp [lookupAssoc, List.find?_cons, hk]
    · have hmem' : (k, b) ∈ tl := by
        rcases List.mem_cons.mp hmem with h | h
        · exact absurd (congrArg Prod.fst h.symm) hk
        · exact h
      have := ih hnd.2 k b hmem'
      simpa [lookupAssoc, List.find?_cons, hk] using this

theorem getElem?_mapIdx_of_getElem? {α β : Type} (l : List α) (f : Nat → α → β)
    (i : Nat) (a : α) (h : l[i]? = some a) :
    (l.mapIdx f)[i]? = some (f i a) := by
  have hi : i < l.length := by
    by_contra hni
    rw [List.getElem?_eq_none (by omega)] at h
    cases h
  have hgl : l[i] = a := by
    have := List.getElem?_eq_getElem hi
    rw [h] at this
    exact (Option.some.inj this).symm
  have hi' : i < (l.mapIdx f).length := by
    rw [List.length_mapIdx]
    exact hi
  rw [List.getElem?_eq_getElem hi']
  have := List.get_mapIdx l f i hi hi'
  simp only [List.get_eq_getElem] at this
  rw [this, hgl]

/-- C7: for every row index, compound source column and target field
promised by discovery, the orchestrator's result row contains a compound
extraction entry for that column whose extraction list has an item for
the field; when the accumulated compound LLM responses hold no value for
that `(rowIndex, sourceColumn, targetField)` combination, that item is
`extractedValue = null, confidence = 0`.  (The construction is a total
function, so building the result cannot throw on a missing
combination.) -/
theorem claim_C7_missing_compound_null (nd : NormalizedData)
    (disc : ParsedDiscoveryResult) (T : Nat)
    (llm : Nat → Nat → List ParsedRowExtraction) (elapsedMs : Nat)
    (exts : List ParsedRowExtraction) (rowIndex : Nat) (row : Row)
    (sourceColumn : String) (targetFields : List String) (targetField : String)
    (hexts : (compoundPassResult nd disc T llm).2 = exts)
    (hrow : nd.data.rows[rowIndex]? = some row)
    (hcc : (sourceColumn, targetFields) ∈ disc.compoundColumns)
    (hnodup : (disc.compoundColumns.map Prod.fst).Nodup)
    (htf : targetField ∈ targetFields)
    (hmiss : lookupCompound exts rowIndex sourceColumn targetField = none) :
    ∃ rowData centry,
      (ExtractorService.extract nd disc T llm elapsedMs).data[rowIndex]? = some rowData ∧
      lookupAssoc rowData.compound sourceColumn = some centry ∧
      ({ targetField := targetField, extractedValue := none, confidence := 0 } :
        CompoundExtractionItem) ∈ centry.extractions := by
  have hdata : (ExtractorService.extract nd disc T llm elapsedMs).data =
      (buildExtractedData nd disc exts).1 := by
    simp only [ExtractorService.extract]
    rw [hexts]
  have hrowData : (ExtractorService.extract nd disc T llm elapsedMs).data[rowIndex]? =
      some (buildExtractedRow disc exts nd.data.headers rowIndex row) := by
    rw [hdata]
    exact getElem?_mapIdx_of_getElem? _ _ _ _ hrow
  refine ⟨buildExtractedRow disc exts nd.data.headers rowIndex row,
    { sourceValue := cell row sourceColumn
      extractions := targetFields.map (fun targetField =>
        match lookupCompound exts rowIndex sourceColumn targetField with
        | some fieldData =>
          { targetField := targetField
            extractedValue := fieldData.value
            confidence := fieldData.confidence }
        | none =>
          { targetField := targetField
            extractedValue := none
            confidence := 0 }) },
    hrowData, ?_, ?_⟩
  · show lookupAssoc
      (disc.compoundColumns.foldl (fun acc p => setAssoc acc p.1
        ((fun p : String × List String =>
          ({ sourceValue := cell row p.1
             extractions := p.2.map (fun targetField =>
               match lookupCompound exts rowIndex p.1 targetField with
               | some fieldData =>
                 { targetField := targetField
                   extractedValue := fieldData.value
                   confidence := fieldData.confidence }
               | none =>
                 { targetField := targetField
                   extractedValue := none
                   confidence := 0 }) } : CompoundExtraction)) p)) [])
      sourceColumn = some _
    rw [foldl_setAssoc_nodup _ disc.compoundColumns [] hnodup (by simp)]
    rw [List.nil_append]
    exact lookupAssoc_map_nodup _ disc.compoundColumns hnodup sourceColumn targetFields hcc
  · refine List.mem_map.mpr ⟨targetField, htf, ?_⟩
    rw [hmiss]

/-- C7 witness: discovery promises `C -> [f1, f2]`, the compound response
covers only `f1` for row 0, and the result still contains an `f2` item
with `extractedValue = null` and `confidence = 0`. -/
theorem claim_C7_witness :
    ∃ rowData centry,
      (ExtractorService.extract
        { source := { filename := "t.csv", type := "csv" }, data := { headers := ["C"], rows := [[("C", "A-B")]], rowCount := 1, columnCount := 1 }, metadata := { parsedAt := "p", parserVersion := "1" } }
        { directMappings := [], compoundColumns := [("C", ["f1", "f2"])], unmappedFields := [] }
        100 (fun _ _ => [{ rowIndex := 0, sourceColumn := "C", fields := [("f1", { value := some "A", confidence := 9 })] }]) 0).data[0]? = some rowData ∧
      lookupAssoc rowData.compound "C" = some centry ∧
      ({ targetField := "f2", extractedValue := none, confidence := 0 } :
        CompoundExtractionItem) ∈ centry.extractions :=
  claim_C7_missing_compound_null
    { source := { filename := "t.csv", type := "csv" }, data := { headers := ["C"], rows := [[("C", "A-B")]], rowCount := 1, columnCount := 1 }, metadata := { parsedAt := "p", parserVersion := "1" } }
    { directMappings := [], compoundColumns := [("C", ["f1", "f2"])], unmappedFields := [] }
    100 (fun _ _ => [{ rowIndex := 0, sourceColumn := "C", fields := [("f1", { value := some "A", confidence := 9 })] }]) 0
    [{ rowIndex := 0, sourceColumn := "C", fields := [("f1", { value := some "A", confidence := 9 })] }]
    0 [("C", "A-B")] "C" ["f1", "f2"] "f2"
    (by decide) (by decide) (by decide) (by decide) (by decide) (by decide)

/-- C8: `averageConfidence` in the result metadata is the mean — rounded
to one decimal with JS `Math.round` (half toward positive infinity) — of
the recorded confidences: one value per compound extraction field the
LLM pass returned plus, for every row, one value per direct mapping; it
is 0 when nothing was recorded.  Concretely, two direct mappings with
confidences 8 and 10 applied to a 2-row dataset give the mean of
8,10,8,10, namely 9. -/
theorem claim_C8_average_confidence :
    (∀ (nd : NormalizedData) (disc : ParsedDiscoveryResult) (T : Nat)
      (llm : Nat → Nat → List ParsedRowExtraction) (elapsedMs : Nat) (L : List ℚ),
      L = ((compoundPassResult nd disc T llm).2.map
            (fun e => e.fields.map (fun p => p.2.confidence))).flatten ++
          (nd.data.rows.map (fun _ =>
            disc.directMappings.map (fun p => p.2.confidence))).flatten →
      (ExtractorService.extract nd disc T llm
          elapsedMs).metadata.extractionSummary.averageConfidence =
        (if L = [] then 0
         else ((⌊L.sum / (L.length : ℚ) * 10 + 1 / 2⌋ : ℤ) : ℚ) / 10)) ∧
    (ExtractorService.extract
      { source := { filename := "t.csv", type := "csv" }, data := { headers := ["Name", "Age"], rows := [[("Name", "John"), ("Age", "30")], [("Name", "Jane"), ("Age", "25")]], rowCount := 2, columnCount := 2 }, metadata := { parsedAt := "p", parserVersion := "1" } }
      { directMappings := [("person_name", { sourceColumn := "Name", confidence := 8 }), ("person_age", { sourceColumn := "Age", confidence := 10 })], compoundColumns := [], unmappedFields := [] }
      100 (fun _ _ => []) 0).metadata.extractionSummary.averageConfidence = 9 := by
  have hgen : ∀ (nd : NormalizedData) (disc : ParsedDiscoveryResult) (T : Nat)
      (llm : Nat → Nat → List ParsedRowExtraction) (elapsedMs : Nat) (L : List ℚ),
      L = ((compoundPassResult nd disc T llm).2.map
            (fun e => e.fields.map (fun p => p.2.confidence))).flatten ++
          (nd.data.rows.map (fun _ =>
            disc.directMappings.map (fun p => p.2.confidence))).flatten →
      (ExtractorService.extract nd disc T llm
          elapsedMs).metadata.extractionSummary.averageConfidence =
        (if L = [] then 0
         else ((⌊L.sum / (L.length : ℚ) * 10 + 1 / 2⌋ : ℤ) : ℚ) / 10) := by
    intro nd disc T llm elapsedMs L hL
    subst hL
    show averageConfidence
      (compoundConfidences (compoundPassResult nd disc T llm).2 ++
        (nd.data.rows.map (fun _ =>
          disc.directMappings.map (fun p => p.2.confidence))).flatten) = _
    unfold averageConfidence jsRound compoundConfidences
    by_cases h0 :
        (((compoundPassResult nd disc T llm).2.map
            (fun e => e.fields.map (fun p => p.2.confidence))).flatten ++
          (nd.data.rows.map (fun _ =>
            disc.directMappings.map (fun p => p.2.confidence))).flatten) = []
    · rw [if_pos h0, if_pos (by rw [h0]; rfl)]
    · rw [if_neg h0, if_neg (fun hemp => h0 (List.isEmpty_iff.mp hemp))]
  refine ⟨hgen, ?_⟩
  have h2 := hgen
    { source := { filename := "t.csv", type := "csv" }, data := { headers := ["Name", "Age"], rows := [[("Name", "John"), ("Age", "30")], [("Name", "Jane"), ("Age", "25")]], rowCount := 2, columnCount := 2 }, metadata := { parsedAt := "p", parserVersion := "1" } }
    { directMappings := [("person_name", { sourceColumn := "Name", confidence := 8 }), ("person_age", { sourceColumn := "Age", confidence := 10 })], compoundColumns := [], unmappedFields := [] }
    100 (fun _ _ => []) 0 [8, 10, 8, 10] rfl
  rw [h2]
  rw [if_neg (by decide)]
  have hsum : ([8, 10, 8, 10] : List ℚ).sum = 36 := by
    simp [List.sum_cons, List.sum_nil]
    norm_num
  have hlen : (([8, 10, 8, 10] : List ℚ).length : ℚ) = 4 := by norm_num
  rw [hsum, hlen]
  have harg : (36 : ℚ) / 4 * 10 + 1 / 2 = 181 / 2 := by norm_num
  rw [harg]
  have hfloor : (⌊(181 : ℚ) / 2⌋ : ℤ) = 90 := by
    rw [Int.floor_eq_iff]
    norm_num
  rw [hfloor]
  norm_num

/-- C8 witness: an extraction run with no direct mappings and no
compound columns records no confidence, so the average is 0. -/
theorem claim_C8_witness :
    (ExtractorService.extract
      { source := { filename := "w.csv", type := "csv" }, data := { headers := ["A"], rows := [[("A", "x")]], rowCount := 1, columnCount := 1 }, metadata := { parsedAt := "p", parserVersion := "1" } }
      { directMappings := [], compoundColumns := [], unmappedFields := [] }
      100 (fun _ _ => []) 0).metadata.extractionSummary.averageConfidence = 0 := by
  have h := claim_C8_average_confidence.1
    { source := { filename := "w.csv", type := "csv" }, data := { headers := ["A"], rows := [[("A", "x")]], rowCount := 1, columnCount := 1 }, metadata := { parsedAt := "p", parserVersion := "1" } }
    { directMappings := [], compoundColumns := [], unmappedFields := [] }
    100 (fun _ _ => []) 0 [] rfl
  simpa using h

theorem setAssoc_preserve {α : Type} (tf : String) (P : α → Prop)
    (m : List (String × α)) (k : String) (v : α)
    (hm : ∀ q ∈ m, q.1 = tf → P q.2) (hv : k = tf → P v) :
    ∀ q ∈ setAssoc m k v, q.1 = tf → P q.2 := by
  intro q hq hqtf
  unfold setAssoc at hq
  by_cases hany : (m.any (fun p => p.1 = k)) = true
  · rw [if_pos hany] at hq
    obtain ⟨p, hp, hpe⟩ := List.mem_map.mp hq
    by_cases hpk : p.1 = k
    · rw [if_pos hpk] at hpe
      subst hpe
      exact hv hqtf
    · rw [if_neg hpk] at hpe
      subst hpe
      exact hm p hp hqtf
  · rw [if_neg hany] at hq
    rcases List.mem_append.mp hq with hq | hq
    · exact hm q hq hqtf
    · have : q = (k, v) := by simpa using hq
      subst this
      exact hv hqtf

theorem foldl_setAssoc_preserve {α : Type} (tf : String) (P : α → Prop) :
    ∀ (writes : List (String × α)) (m : List (String × α)),
      (∀ q ∈ m, q.1 = tf → P q.2) →
      (∀ w ∈ writes, w.1 = tf → P w.2) →
      ∀ q ∈ writes.foldl (fun acc w => setAssoc acc w.1 w.2) m, q.1 = tf → P q.2 := by
  intro writes
  induction writes with
  | nil => intro m hm _; simpa using hm
  | cons w ws ih =>
    intro m hm hw
    simp only [List.foldl_cons]
    exact ih (setAssoc m w.1 w.2)
      (setAssoc_preserve tf P m w.1 w.2 hm (hw w (List.mem_cons_self _ _)))
      (fun x hx => hw x (List.mem_cons_of_mem _ hx))

theorem lookupAssoc_isSome_setAssoc {α : Type} (m : List (String × α))
    (k k' : String) (v : α) (h : (lookupAssoc m k').isSome = true) :
    (lookupAssoc (setAssoc m k v) k').isSome = true := by
  unfold lookupAssoc at h ⊢
  rw [Option.isSome_map'] at h ⊢
  rw [List.find?_isSome] at h ⊢
  obtain ⟨x, hx, hpx⟩ := h
  unfold setAssoc
  by_cases hany : (m.any (fun p => p.1 = k)) = true
  · rw [if_pos hany]
    by_cases hxk : x.1 = k
    · refine ⟨(k, v), List.mem_map.mpr ⟨x, hx, by rw [if_pos hxk]⟩, ?_⟩
      simp only [decide_eq_true_eq] at hpx ⊢
      rw [← hxk]
      exact hpx
    · exact ⟨x, List.mem_map.mpr ⟨x, hx, by rw [if_neg hxk]⟩, hpx⟩
  · rw [if_neg hany]
    exact ⟨x, List.mem_append.mpr (Or.inl hx), hpx⟩

theorem lookupAssoc_isSome_setAssoc_self {α : Type} (m : List (String × α))
    (k : String) (v : α) :
    (lookupAssoc (setAssoc m k v) k).isSome = true := by
  unfold lookupAssoc setAssoc
  rw [Option.isSome_map', List.find?_isSome]
  by_cases hany : (m.any (fun p => p.1 = k)) = true
  · rw [if_pos hany]
    rw [List.any_eq_true] at hany
    obtain ⟨p, hp, hpk⟩ := hany
    refine ⟨(k, v), List.mem_map.mpr ⟨p, hp, by rw [if_pos (by simpa using hpk)]⟩, by simp⟩
  · rw [if_neg hany]
    exact ⟨(k, v), List.mem_append.mpr (Or.inr (by simp)), by simp⟩

theorem foldl_setAssoc_isSome {α : Type} (tf : String) :
    ∀ (writes : List (String × α)) (m : List (String × α)),
      ((lookupAssoc m tf).isSome = true ∨ (∃ w ∈ writes, w.1 = tf)) →
      (lookupAssoc (writes.foldl (fun acc w => setAssoc acc w.1 w.2) m) tf).isSome = true := by
  intro writes
  induction writes with
  | nil =>
    intro m hm
    rcases hm with hm | ⟨w, hw, _⟩
    · simpa using hm
    · cases hw
  | cons w ws ih =>
    intro m hm
    simp only [List.foldl_cons]
    apply ih
    rcases hm with hm | ⟨x, hx, hxtf⟩
    · exact Or.inl (lookupAssoc_isSome_setAssoc m w.1 tf w.2 hm)
    · rcases List.mem_cons.mp hx with hxw | hxw
      · subst hxw
        subst hxtf
        exact Or.inl (lookupAssoc_isSome_setAssoc_self m x.1 x.2)
      · exact Or.inr ⟨x, hxw, hxtf⟩

theorem lookupAssoc_eq_some_mem {α : Type} (m : List (String × α)) (k : String)
    (v : α) (h : lookupAssoc m k = some v) : ∃ q ∈ m, q.1 = k ∧ q.2 = v := by
  unfold lookupAssoc at h
  obtain ⟨q, hq, hqv⟩ := Option.map_eq_some'.mp h
  exact ⟨q, List.mem_of_find?_eq_some hq,
    by simpa using List.find?_some hq, hqv⟩

theorem transformRow_writes (row : ExtractedRowData) :
    MapperService.transformRow row =
      (row.direct.map (fun p =>
          (p.2.targetField, if p.2.value = "" then none else some p.2.value)) ++
       (row.compound.map (fun q =>
          q.2.extractions.map (fun it => (it.targetField, it.extractedValue)))).flatten).foldl
        (fun acc w => setAssoc acc w.1 w.2) [] := by
  unfold MapperService.transformRow
  rw [List.foldl_append, List.foldl_map, List.foldl_flatten, List.foldl_map]
  have hfun : (fun (output : FinalOutputRow) (p : String × CompoundExtraction) =>
      List.foldl (fun o it => setAssoc o it.targetField it.extractedValue)
        output p.2.extractions) =
      (fun x y => List.foldl (fun acc w => setAssoc acc w.1 w.2) x
        (List.map (fun it => (it.targetField, it.extractedValue)) y.2.extractions)) := by
    funext x y
    rw [List.foldl_map]
  show List.foldl (fun output p =>
      List.foldl (fun o it => setAssoc o it.targetField it.extractedValue)
        output p.2.extractions) _ row.compound = _
  rw [hfun]

/-- C10 counterexample: in a row where target field `f` is directly
mapped with recorded value `""` and a compound extraction also carries
`f` with `extractedValue = ""`, the flattened output maps the
directly-mapped field `f` to the empty string — the compound loop's
unconditional assignment overwrites the direct entry's null — so a
directly-mapped target field in the final output can be the empty
string, falsifying the claim as stated at this concrete input. -/
theorem claim_C10_counterexample :
    List.map (fun p => p.2.targetField)
      ({ direct := [("A", { value := "", targetField := "f", confidence := 5 })], compound := [("B", { sourceValue := "x", extractions := [{ targetField := "f", extractedValue := some "", confidence := 1 }] })], unmapped := [] } : ExtractedRowData).direct = ["f"] ∧
    lookupAssoc (MapperService.transformRow
      { direct := [("A", { value := "", targetField := "f", confidence := 5 })], compound := [("B", { sourceValue := "x", extractions := [{ targetField := "f", extractedValue := some "", confidence := 1 }] })], unmapped := [] }) "f" = some (some "") := by
  exact ⟨rfl, rfl⟩

/-- C10 (amended): `toFinalOutput`'s direct entries always flatten a
recorded empty-string value to null; for a target field that appears
among a row's direct mappings and is not also written by any compound
extraction of that row, the flattened output has an entry that is never
the empty string, and it is null whenever every direct entry for the
field recorded the empty string.  (A compound extraction for the same
target field may still overwrite the value with an empty string, per the
counterexample.) -/
theorem claim_C10_amended (row : ExtractedRowData) (targetField : String)
    (hdirect : ∃ p ∈ row.direct, p.2.targetField = targetField)
    (hnocomp : ∀ q ∈ row.compound, ∀ it ∈ q.2.extractions,
      it.targetField ≠ targetField) :
    ∃ v, lookupAssoc (MapperService.transformRow row) targetField = some v ∧
      v ≠ some "" ∧
      ((∀ p ∈ row.direct, p.2.targetField = targetField → p.2.value = "") →
        v = none) := by
  rw [transformRow_writes]
  have hwrites : ∀ w ∈ (row.direct.map (fun p =>
      (p.2.targetField, if p.2.value = "" then none else some p.2.value)) ++
      (row.compound.map (fun q =>
        q.2.extractions.map (fun it => (it.targetField, it.extractedValue)))).flatten),
      w.1 = targetField →
      (w.2 ≠ some "" ∧
        ((∀ p ∈ row.direct, p.2.targetField = targetField → p.2.value = "") →
          w.2 = none)) := by
    intro w hw hwtf
    rcases List.mem_append.mp hw with hw | hw
    · obtain ⟨p, hp, hpe⟩ := List.mem_map.mp hw
      subst hpe
      by_cases hpv : p.2.value = ""
      · rw [if_pos hpv]
        exact ⟨by simp, fun _ => rfl⟩
      · rw [if_neg hpv]
        refine ⟨by simpa using hpv, fun hall => absurd (hall p hp hwtf) hpv⟩
    · obtain ⟨l, hl, hwl⟩ := List.mem_flatten.mp hw
      obtain ⟨q, hq, hqe⟩ := List.mem_map.mp hl
      subst hqe
      obtain ⟨it, hit, hite⟩ := List.mem_map.mp hwl
      subst hite
      exact absurd hwtf (hnocomp q hq it hit)
  have hsome : (lookupAssoc ((row.direct.map (fun p =>
      (p.2.targetField, if p.2.value = "" then none else some p.2.value)) ++
      (row.compound.map (fun q =>
        q.2.extractions.map (fun it => (it.targetField, it.extractedValue)))).flatten).foldl
        (fun acc w => setAssoc acc w.1 w.2) []) targetField).isSome = true := by
    apply foldl_setAssoc_isSome
    refine Or.inr ?_
    obtain ⟨p, hp, hptf⟩ := hdirect
    exact ⟨(p.2.targetField, if p.2.value = "" then none else some p.2.value),
      List.mem_append.mpr (Or.inl (List.mem_map.mpr ⟨p, hp, rfl⟩)), hptf⟩
  obtain ⟨v, hv⟩ := Option.isSome_iff_exists.mp hsome
  refine ⟨v, hv, ?_⟩
  obtain ⟨q, hq, hqtf, hqv⟩ := lookupAssoc_eq_some_mem _ _ _ hv
  have hP := foldl_setAssoc_preserve targetField
    (fun x => x ≠ some "" ∧
      ((∀ p ∈ row.direct, p.2.targetField = targetField → p.2.value = "") →
        x = none))
    _ [] (by simp) hwrites q hq hqtf
  rw [hqv] at hP
  exact hP

/-- C10 witness: the sole direct mapping for `f` records the empty
string and no compound extraction touches `f`, so the flattened output
maps `f` to null. -/
theorem claim_C10_witness :
    lookupAssoc (MapperService.transformRow
      { direct := [("A", { value := "", targetField := "f", confidence := 5 })]
        compound := []
        unmapped := [] }) "f" = some none := by
  obtain ⟨v, hv, hne, hnone⟩ := claim_C10_amended
    { direct := [("A", { value := "", targetField := "f", confidence := 5 })]
      compound := []
      unmapped := [] } "f"
    (by refine ⟨("A", { value := "", targetField := "f", confidence := 5 }), by simp, rfl⟩)
    (by intro q hq; cases hq)
  rw [hnone (by intro p hp _; rcases (by simpa using hp : p = ("A", { value := "", targetField := "f", confidence := 5 })) with rfl; rfl)] at hv
  exact hv
